import Mathlib

/-!
Verification of the quilt-sdk client library: the property-name
normalization engine (src/utils/normalize.ts), per-operation defaulting and
request building (src/wrapper.ts, src/utils/defaults.ts), and the HTTP
transport error translation (src/http-client.ts), shallowly embedded over a
JSON-like value type mirroring the JavaScript runtime values the code
manipulates.
-/

/-- A JSON-like runtime value: the payload trees the SDK manipulates.
Mappings are association lists in JavaScript property insertion order;
absence of a property is modelled by `Option` at use sites. -/
inductive JsonValue where
  | vstr (s : String)
  | vnum (n : Int)
  | vbool (b : Bool)
  | vnull
  | varr (elems : List JsonValue)
  | vobj (fields : List (String × JsonValue))

open JsonValue

/-- The alias table from src/utils/normalize.ts (PROPERTY_MAP): alternate
spelling to canonical snake_case name, in source order. -/
def PROPERTY_MAP : List (String × String) :=
  [ ("image", "image_path")
  , ("cmd", "command")
  , ("env", "environment")
  , ("workdir", "working_directory")
  , ("memory", "memory_limit_mb")
  , ("cpu", "cpu_limit_percent")
  , ("id", "container_id")
  , ("src", "source")
  , ("dst", "target")
  , ("dest", "target")
  , ("ro", "readonly")
  , ("ip", "ip_address")
  , ("bridge", "bridge_interface")
  , ("timeout", "timeout_seconds")
  , ("capture", "capture_output")
  , ("include", "include_system")
  , ("cmdB64", "cmd_b64")
  , ("partsB64", "parts_b64")
  , ("imagePath", "image_path")
  , ("workingDirectory", "working_directory")
  , ("setupCommands", "setup_commands")
  , ("memoryLimitMb", "memory_limit_mb")
  , ("cpuLimitPercent", "cpu_limit_percent")
  , ("enablePidNamespace", "enable_pid_namespace")
  , ("enableMountNamespace", "enable_mount_namespace")
  , ("enableUtsNamespace", "enable_uts_namespace")
  , ("enableIpcNamespace", "enable_ipc_namespace")
  , ("enableNetworkNamespace", "enable_network_namespace")
  , ("asyncMode", "async_mode")
  , ("containerId", "container_id")
  , ("containerName", "container_name")
  , ("timeoutSeconds", "timeout_seconds")
  , ("captureOutput", "capture_output")
  , ("copyScript", "copy_script")
  , ("exitCode", "exit_code")
  , ("errorMessage", "error_message")
  , ("mountPoint", "mount_point")
  , ("createdAt", "created_at")
  , ("startedAt", "started_at")
  , ("exitedAt", "exited_at")
  , ("ipAddress", "ip_address")
  , ("bridgeInterface", "bridge_interface")
  , ("vethHost", "veth_host")
  , ("vethContainer", "veth_container")
  , ("setupCompleted", "setup_completed")
  , ("includeSystem", "include_system")
  , ("startTime", "start_time")
  , ("endTime", "end_time")
  , ("intervalSeconds", "interval_seconds")
  , ("taskId", "task_id")
  , ("resourceType", "resource_type")
  , ("resourcePath", "resource_path")
  , ("completedAt", "completed_at")
  , ("memoryUsageBytes", "memory_usage_bytes")
  , ("rootfsPath", "rootfs_path")
  , ("uptimeSeconds", "uptime_seconds")
  , ("containersRunning", "containers_running")
  , ("containersTotal", "containers_total")
  , ("containersStopped", "containers_stopped")
  , ("memoryUsedMb", "memory_used_mb")
  , ("memoryTotalMb", "memory_total_mb")
  , ("cpuCount", "cpu_count")
  , ("loadAverage", "load_average")
  , ("containerMetrics", "container_metrics")
  , ("systemMetrics", "system_metrics")
  , ("networkConfig", "network_config")
  , ("eventType", "event_type")
  , ("eventTypes", "event_types")
  , ("containerIds", "container_ids")
  , ("allocationTime", "allocation_time")
  , ("cleanedResources", "cleaned_resources")
  , ("fn", "function_id")
  , ("fnId", "function_id")
  , ("fnName", "function_name")
  , ("code", "code_source")
  , ("pool", "pool_size")
  , ("drain", "drain_timeout_seconds")
  , ("async", "async_mode")
  , ("functionId", "function_id")
  , ("functionName", "function_name")
  , ("codeSource", "code_source")
  , ("codeHash", "code_hash")
  , ("poolSize", "pool_size")
  , ("drainTimeoutSeconds", "drain_timeout_seconds")
  , ("invocationId", "invocation_id")
  , ("coldStart", "cold_start")
  , ("inputPayload", "input_payload")
  , ("outputPayload", "output_payload")
  , ("versionId", "version_id")
  , ("targetVersion", "target_version")
  , ("currentVersion", "current_version")
  , ("lastInvokedAt", "last_invoked_at")
  , ("invocationCount", "invocation_count")
  , ("errorCount", "error_count")
  , ("avgDurationMs", "avg_duration_ms")
  , ("durationMs", "duration_ms")
  , ("maxInvocations", "max_invocations")
  , ("lastUsedAt", "last_used_at")
  , ("totalContainers", "total_containers")
  , ("readyContainers", "ready_containers")
  , ("busyContainers", "busy_containers")
  , ("totalFunctions", "total_functions")
  , ("functionsWithPools", "functions_with_pools")
  , ("avgPoolSize", "avg_pool_size")
  , ("totalInvocations", "total_invocations")
  , ("coldStarts", "cold_starts")
  , ("warmHits", "warm_hits")
  , ("coldStartRate", "cold_start_rate")
  , ("containersWarmed", "containers_warmed")
  , ("containersDrained", "containers_drained")
  , ("totalCount", "total_count")
  , ("readyCount", "ready_count")
  , ("busyCount", "busy_count")
  , ("tenantId", "tenant_id")
  , ("updatedAt", "updated_at")
  ]

/-- First-match association lookup, modelling reading a property of a plain
JavaScript object literal (whose keys are unique). -/
def lookupAlias : String → List (String × String) → Option String
  | _, [] => none
  | k, (a, c) :: rest => if a = k then some c else lookupAlias k rest

/-- The canonical key for an input key: PROPERTY_MAP lookup with fallback to
the key itself (the expression PROPERTY_MAP key OR key in normalizeObject;
every table value is a non-empty string, so OR-fallback is lookup-fallback). -/
def lookupKey (k : String) : String :=
  (lookupAlias k PROPERTY_MAP).getD k

/-- JavaScript property assignment target key = v on an object represented in
insertion order: an existing key keeps its position and gets the new value, a
new key is appended at the end. -/
def setKey : List (String × JsonValue) → String → JsonValue → List (String × JsonValue)
  | [], k, v => [(k, v)]
  | (k0, v0) :: rest, k, v =>
    if k0 = k then (k0, v) :: rest else (k0, v0) :: setKey rest k v

/-- Reading a property of an object in insertion-order representation. -/
def lookupField : String → List (String × JsonValue) → Option JsonValue
  | _, [] => none
  | k, (k0, v) :: rest => if k0 = k then some v else lookupField k rest

/-- JavaScript object spread: assign every entry of the second object onto
the first, in order (models expressions of the shape braces-dots a, dots b). -/
def spreadFields : List (String × JsonValue) → List (String × JsonValue) → List (String × JsonValue)
  | acc, [] => acc
  | acc, (k, v) :: rest => spreadFields (setKey acc k v) rest

mutual

/-- Normalization of one property value inside normalizeObject
(src/utils/normalize.ts lines 109-133): a plain object is recursively
normalized; an array is mapped element-wise, normalizing exactly the elements
that are plain objects; every other value passes through. -/
def normalizeChild : JsonValue → JsonValue
  | .vobj fields => .vobj (normalizeFields fields [])
  | .varr elems => .varr (normalizeElems elems)
  | v => v

/-- The array case of normalizeObject: value.map of item to
normalizeObject item when the item is a plain object, else the item. -/
def normalizeElems : List JsonValue → List JsonValue
  | [] => []
  | .vobj fields :: rest => .vobj (normalizeFields fields []) :: normalizeElems rest
  | x :: rest => x :: normalizeElems rest

/-- The loop of normalizeObject: for each entry of the input in order, write
the normalized value under the canonical key into the accumulator object
(which starts empty), with JavaScript assignment semantics. -/
def normalizeFields : List (String × JsonValue) → List (String × JsonValue) → List (String × JsonValue)
  | [], acc => acc
  | (k, v) :: rest, acc => normalizeFields rest (setKey acc (lookupKey k) (normalizeChild v))

end

/-- normalizeObject of src/utils/normalize.ts: rewrite keys through the alias
table over a fresh empty object. The exported normalize function is this
function plus a type cast. -/
def normalizeObject (fields : List (String × JsonValue)) : List (String × JsonValue) :=
  normalizeFields fields []

/-- JavaScript truthiness of a runtime value. -/
def jsTruthy : JsonValue → Bool
  | .vstr s => !(s = "")
  | .vnum n => !(n = 0)
  | .vbool b => b
  | .vnull => false
  | .varr _ => true
  | .vobj _ => true

/-- Truthiness of a possibly absent property (absence is undefined: falsy). -/
def jsTruthyOpt : Option JsonValue → Bool
  | none => false
  | some v => jsTruthy v

mutual

/-- JavaScript string coercion as used in template literals: strings as-is,
numbers and booleans printed, null prints null, arrays join their elements
with commas, plain objects print the object placeholder. -/
def jsString : JsonValue → String
  | .vstr s => s
  | .vnum n => toString n
  | .vbool b => if b then "true" else "false"
  | .vnull => "null"
  | .varr l => String.intercalate "," (jsStringList l)
  | .vobj _ => "[object Object]"

/-- Element-wise string coercion for the array case of jsString. -/
def jsStringList : List JsonValue → List String
  | [] => []
  | x :: rest => jsString x :: jsStringList rest

end

/-- Property read on an arbitrary value: only plain objects have the
properties we model; reads on other values yield undefined. -/
def jsGet (v : JsonValue) (k : String) : Option JsonValue :=
  match v with
  | .vobj fields => lookupField k fields
  | _ => none

/-- JavaScript a OR b on runtime values: the left value when truthy,
otherwise the right. -/
def jsOr (a b : JsonValue) : JsonValue :=
  if jsTruthy a then a else b

/-- JavaScript a OR b where a is a possibly absent property. -/
def jsOrOpt (a : Option JsonValue) (b : JsonValue) : JsonValue :=
  match a with
  | some v => jsOr v b
  | none => b

/-! Default tables (src/utils/defaults.ts), as canonical-key objects. -/

/-- CONTAINER_DEFAULTS of src/utils/defaults.ts. -/
def CONTAINER_DEFAULTS : List (String × JsonValue) :=
  [ ("image_path", .vstr "/var/lib/quilt/images/default.tar")
  , ("async_mode", .vbool true)
  , ("enable_pid_namespace", .vbool true)
  , ("enable_mount_namespace", .vbool true)
  , ("enable_uts_namespace", .vbool true)
  , ("enable_ipc_namespace", .vbool true)
  , ("enable_network_namespace", .vbool true)
  , ("setup_commands", .varr [])
  , ("environment", .vobj [])
  , ("working_directory", .vstr "")
  ]

/-- EXEC_DEFAULTS of src/utils/defaults.ts. -/
def EXEC_DEFAULTS : List (String × JsonValue) :=
  [ ("capture_output", .vbool true)
  , ("working_directory", .vstr "/")
  ]

/-- STOP_DEFAULTS of src/utils/defaults.ts. -/
def STOP_DEFAULTS : List (String × JsonValue) :=
  [ ("timeout_seconds", .vnum 10) ]

/-- VOLUME_DEFAULTS of src/utils/defaults.ts. -/
def VOLUME_DEFAULTS : List (String × JsonValue) :=
  [ ("driver", .vstr "local") ]

/-- METRICS_DEFAULTS of src/utils/defaults.ts. -/
def METRICS_DEFAULTS : List (String × JsonValue) :=
  [ ("include_system", .vbool true) ]

/-- First defaulting statement of Quilt.create (src/wrapper.ts line 157):
if async_mode is undefined, assign true. -/
def applyAsyncDefault (wd : List (String × JsonValue)) : List (String × JsonValue) :=
  if (lookupField "async_mode" wd).isNone then setKey wd "async_mode" (.vbool true) else wd

/-- Second defaulting statement of Quilt.create (src/wrapper.ts lines
158-160): if neither the image property nor the image_path property is
truthy, assign the default image path from CONTAINER_DEFAULTS. -/
def applyImageDefault (wd : List (String × JsonValue)) : List (String × JsonValue) :=
  if !(jsTruthyOpt (lookupField "image" wd)) && !(jsTruthyOpt (lookupField "image_path" wd)) then
    setKey wd "image_path" ((lookupField "image_path" CONTAINER_DEFAULTS).getD .vnull)
  else wd

/-- The defaulting phase of Quilt.create (src/wrapper.ts lines 153-161):
copy the params object, then apply the async and image defaults in order. -/
def createWithDefaults (params : List (String × JsonValue)) : List (String × JsonValue) :=
  applyImageDefault (applyAsyncDefault (spreadFields [] params))

/-- The canonical payload Quilt.create posts to /containers: defaults applied
then property names normalized. -/
def createCanonical (params : List (String × JsonValue)) : List (String × JsonValue) :=
  normalizeObject (createWithDefaults params)

/-! Base64 encoding, as performed by Buffer.from(script).toString applied to
the base64 encoding name in Quilt.exec. -/

/-- The base64 alphabet. -/
def base64Chars : List Char :=
  "ABCDEFGHIJKLMNOPQRSTUVWXYZabcdefghijklmnopqrstuvwxyz0123456789+/".toList

/-- The base64 digit for a 6-bit group. -/
def b64digit (n : Nat) : String :=
  String.singleton (base64Chars.getD n (Char.ofNat 65))

/-- Standard base64 with padding over a byte list. -/
def base64Encode : List Nat → String
  | [] => ""
  | [a] =>
    b64digit (a / 4) ++ b64digit (a % 4 * 16) ++ "=="
  | [a, b] =>
    b64digit (a / 4) ++ b64digit (a % 4 * 16 + b / 16) ++ b64digit (b % 16 * 4) ++ "="
  | a :: b :: c :: rest =>
    b64digit (a / 4) ++ b64digit (a % 4 * 16 + b / 16) ++ b64digit (b % 16 * 4 + c / 64) ++
      b64digit (c % 64) ++ base64Encode rest

/-- UTF-8 bytes of one character. -/
def utf8Bytes (c : Char) : List Nat :=
  let n := c.toNat
  if n < 128 then [n]
  else if n < 2048 then [192 + n / 64, 128 + n % 64]
  else if n < 65536 then [224 + n / 4096, 128 + n / 64 % 64, 128 + n % 64]
  else [240 + n / 262144, 128 + n / 4096 % 64, 128 + n / 64 % 64, 128 + n % 64]

/-- Base64 of the UTF-8 bytes of a string: Buffer.from(s).toString base64. -/
def base64OfString (s : String) : String :=
  base64Encode (s.toList.flatMap utf8Bytes)

/-! The exec request builder and name resolution (src/wrapper.ts). -/

/-- HTTP method of a transport request. -/
inductive Method where
  | get
  | post
  | put
  | delete
  deriving DecidableEq

/-- One transport request: method, path and optional JSON body. -/
structure Request where
  method : Method
  path : String
  body : Option JsonValue

/-- Response of the by-name lookup endpoint (GetContainerByNameResponse). -/
structure ByNameResponse where
  container_id : String
  found : Bool
  error_message : String

/-- An apostrophe, as used in the wrapper error messages. -/
def squote : String := String.singleton (Char.ofNat 39)

/-- The request sent by Quilt.getContainerByName for a given name. -/
def byNameRequest (name : String) : Request :=
  { method := .get, path := "/containers/by-name/" ++ name, body := none }

/-- Quilt.resolveContainerId (src/wrapper.ts lines 721-733), with the by-name
lookup service abstracted as a function from name to its successful response:
a falsy or absent name raises the local missing-argument error with no
request; otherwise the lookup request is sent and a response with found false
or an empty identifier raises the not-found error naming the name. Returns
the requests sent together with the result. -/
def resolveContainerId (name : Option JsonValue) (svc : String → ByNameResponse) :
    List Request × Except String String :=
  if !(jsTruthyOpt name) then
    ([], .error "Either container_id or container_name must be provided")
  else
    let s := jsString (name.getD .vnull)
    let r := svc s
    if !r.found || r.container_id = "" then
      ([byNameRequest s], .error ("Container " ++ squote ++ s ++ squote ++ " not found"))
    else
      ([byNameRequest s], .ok r.container_id)

/-- The command-shape dispatch of Quilt.exec (src/wrapper.ts lines 284-301)
on the normalized payload: a truthy script is base64-encoded into a cmd_b64
object; otherwise a string, array or (truthy) object command passes through;
otherwise the local validation error is raised. -/
def execCommandBody (n : List (String × JsonValue)) : Except String JsonValue :=
  if jsTruthyOpt (lookupField "script" n) then
    .ok (.vobj [("cmd_b64", .vstr (base64OfString (jsString ((lookupField "script" n).getD .vnull))))])
  else
    match lookupField "command" n with
    | some (.vstr c) => .ok (.vstr c)
    | some (.varr l) => .ok (.varr l)
    | some (.vobj f) => .ok (.vobj f)
    | _ => .error "exec requires command or script parameter"

/-- An object entry for a possibly undefined value: JSON serialization drops
properties whose value is undefined. -/
def optEntry (k : String) (v : Option JsonValue) : List (String × JsonValue) :=
  match v with
  | some x => [(k, x)]
  | none => []

/-- The body Quilt.exec posts (src/wrapper.ts lines 303-307): the dispatched
command plus workdir and capture_output from the normalized payload. -/
def execBody (cb : JsonValue) (n : List (String × JsonValue)) : JsonValue :=
  .vobj ([("command", cb)]
    ++ optEntry "workdir" (lookupField "working_directory" n)
    ++ optEntry "capture_output" (lookupField "capture_output" n))

/-- Quilt.exec (src/wrapper.ts lines 278-314): merge EXEC_DEFAULTS under the
params, normalize, resolve the container identifier (possibly via the
by-name lookup), dispatch the command shape, then post the exec request.
Returns the requests sent and either the posted request or the error raised. -/
def execModel (params : List (String × JsonValue)) (svc : String → ByNameResponse) :
    List Request × Except String Request :=
  let n := normalizeObject (spreadFields EXEC_DEFAULTS params)
  let step :=
    if jsTruthyOpt (lookupField "container_id" n) then
      (([], .ok (jsString ((lookupField "container_id" n).getD .vnull))) :
        List Request × Except String String)
    else
      resolveContainerId (lookupField "container_name" n) svc
  match step.2 with
  | .error e => (step.1, .error e)
  | .ok cid =>
    match execCommandBody n with
    | .error e => (step.1, .error e)
    | .ok cb =>
      let req : Request :=
        { method := .post, path := "/containers/" ++ cid ++ "/exec", body := some (execBody cb n) }
      (step.1 ++ [req], .ok req)

/-! The HTTP transport (src/http-client.ts) and its error translation. -/

/-- The typed transport failure QuiltHttpError: message, status code, method,
path and optional service detail. The Error constructor coerces its message
to a string; the details property is stored as given. -/
structure QuiltHttpError where
  message : String
  statusCode : Nat
  method : Method
  path : String
  details : Option JsonValue

/-- A raw HTTP response as seen by HttpClient.request: status, status text,
body text, and the outcome of JSON.parse on the body text (none when parsing
throws). -/
structure HttpResponse where
  status : Nat
  statusText : String
  bodyText : String
  parsed : Option JsonValue

/-- The ok flag of a fetch response: status in the 2xx range. -/
def responseOk (status : Nat) : Bool :=
  200 ≤ status && status ≤ 299

/-- The parsed response data of HttpClient.request: empty body parses to an
empty object, a JSON body to its parse, and a non-JSON body is wrapped as a
message object. -/
def responseData (r : HttpResponse) : JsonValue :=
  if r.bodyText = "" then .vobj []
  else
    match r.parsed with
    | some j => j
    | none => .vobj [("message", .vstr r.bodyText)]

/-- HttpClient.request (src/http-client.ts lines 100-123) on a completed
response: 204 yields no data; a 2xx response yields the parsed data; any
other status throws QuiltHttpError whose message is the error property of the
parsed data when truthy and the HTTP status fallback otherwise, and whose
details is the details property of the parsed data. -/
def requestOutcome (method : Method) (path : String) (r : HttpResponse) :
    Except QuiltHttpError (Option JsonValue) :=
  if r.status = 204 then .ok none
  else
    let data := responseData r
    if responseOk r.status then .ok (some data)
    else
      let errVal := jsGet data "error"
      let msg :=
        match errVal with
        | some v => if jsTruthy v then jsString v
                    else "HTTP " ++ toString r.status ++ ": " ++ r.statusText
        | none => "HTTP " ++ toString r.status ++ ": " ++ r.statusText
      .error { message := msg, statusCode := r.status, method := method, path := path,
               details := jsGet data "details" }

/-- The typed failure Quilt operations rethrow (QuiltApiError): the failed
operation name plus the transport failure data. -/
structure QuiltApiError where
  message : String
  method : String
  statusCode : Nat
  details : Option JsonValue

/-- Quilt.handleError (src/wrapper.ts lines 125-135) on a transport failure:
wrap it as QuiltApiError carrying the operation name. -/
def handleError (e : QuiltHttpError) (methodName : String) : QuiltApiError :=
  { message := e.message, method := methodName, statusCode := e.statusCode, details := e.details }

/-- Result of Quilt.inspectVolume. -/
structure InspectVolumeResult where
  found : Bool
  volume : JsonValue
  error_message : String

/-- Quilt.inspectVolume (src/wrapper.ts lines 380-400) given the outcome of
its volume-inspect GET: success wraps the volume; a 404 transport failure
resolves to found false with the fixed message; any other transport failure
is rethrown through handleError. -/
def inspectVolume (outcome : Except QuiltHttpError JsonValue) :
    Except QuiltApiError InspectVolumeResult :=
  match outcome with
  | .ok volume => .ok { found := true, volume := volume, error_message := "" }
  | .error e =>
    if e.statusCode = 404 then
      .ok { found := false, volume := .vobj [], error_message := "Volume not found" }
    else
      .error (handleError e "inspectVolume")

/-- The body Quilt.forceCleanupContainer posts (src/wrapper.ts lines
666-672): confirm is the normalized confirm property OR true, remove_volumes
is the normalized remove_volumes property OR false. -/
def forceCleanupBody (params : List (String × JsonValue)) : JsonValue :=
  let n := normalizeObject params
  .vobj [ ("confirm", jsOrOpt (lookupField "confirm" n) (.vbool true))
        , ("remove_volumes", jsOrOpt (lookupField "remove_volumes" n) (.vbool false)) ]

/-! Auxiliary predicates used to state and prove the normalization
properties. -/

/-- A key does not occur in an object representation. -/
def keyAbsent (k : String) : List (String × JsonValue) → Bool
  | [] => true
  | (k0, _) :: rest => if k0 = k then false else keyAbsent k rest

/-- All keys of the first object are absent from the second. -/
def keysDisjoint : List (String × JsonValue) → List (String × JsonValue) → Bool
  | [], _ => true
  | (k, _) :: rest, acc => keyAbsent k acc && keysDisjoint rest acc

/-- Keys of an object representation are pairwise distinct, as they are for
every JavaScript object. -/
def distinctKeys : List (String × JsonValue) → Bool
  | [] => true
  | (k, _) :: rest => keyAbsent k rest && distinctKeys rest

mutual

/-- A value is in normal form for the normalizer: a plain object has
canonical distinct keys and normal values, an array has normal plain-object
elements (other elements are unconstrained, as the normalizer leaves them
alone), and every other value is normal. -/
def isNFChild : JsonValue → Bool
  | .vobj fields => isNFFields fields
  | .varr elems => isNFElems elems
  | _ => true

/-- Normal form for the elements of an array value. -/
def isNFElems : List JsonValue → Bool
  | [] => true
  | .vobj fields :: rest => isNFFields fields && isNFElems rest
  | _ :: rest => isNFElems rest

/-- Normal form for an object representation: each key is a fixed point of
the alias lookup, occurs once, and holds a normal value. -/
def isNFFields : List (String × JsonValue) → Bool
  | [] => true
  | (k, v) :: rest =>
    (if lookupKey k = k then true else false) && keyAbsent k rest && isNFChild v && isNFFields rest

end

/-- The values written to a given canonical key when an object is normalized:
the values of the entries whose key rewrites to that canonical key, in order.
The last such writer wins under JavaScript assignment. -/
def writersTo (c : String) : List (String × JsonValue) → List JsonValue
  | [] => []
  | (k, v) :: rest => if lookupKey k = c then v :: writersTo c rest else writersTo c rest

/-- A value that is a plain object. -/
def isObjValue : JsonValue → Bool
  | .vobj _ => true
  | _ => false

/-- A scalar: neither a plain object nor an array. -/
def isScalar : JsonValue → Bool
  | .vobj _ => false
  | .varr _ => false
  | _ => true

/-! Helper lemmas about lookup, assignment and key absence. -/

/-- A successful alias lookup comes from a table entry. -/
theorem lookupAlias_mem {k v : String} {m : List (String × String)}
    (h : lookupAlias k m = some v) : (k, v) ∈ m := by
  induction m with
  | nil => simp [lookupAlias] at h
  | cons p rest ih =>
    obtain ⟨a, c⟩ := p
    by_cases hak : a = k
    · subst hak
      simp [lookupAlias] at h
      simp [h]
    · simp [lookupAlias, hak] at h
      exact List.mem_cons_of_mem _ (ih h)

set_option maxRecDepth 4000 in
/-- No canonical value of the alias table occurs as a table key: every
canonical name is a fixed point of the table. -/
theorem propertyMapValuesFixed : ∀ p ∈ PROPERTY_MAP, lookupAlias p.2 PROPERTY_MAP = none := by
  decide

/-- Canonicalizing a key is idempotent. -/
theorem lookupKey_idem (k : String) : lookupKey (lookupKey k) = lookupKey k := by
  unfold lookupKey
  cases h : lookupAlias k PROPERTY_MAP with
  | none => simp [h]
  | some v => simp [h, propertyMapValuesFixed (k, v) (lookupAlias_mem h)]

/-- Assigning an absent key appends the entry. -/
theorem setKey_append {k : String} {acc : List (String × JsonValue)} (v : JsonValue)
    (h : keyAbsent k acc = true) : setKey acc k v = acc ++ [(k, v)] := by
  induction acc with
  | nil => rfl
  | cons p rest ih =>
    obtain ⟨k0, v0⟩ := p
    by_cases hk : k0 = k
    · simp [keyAbsent, hk] at h
    · simp [keyAbsent, hk] at h
      simp [setKey, hk, ih h]

/-- Assignment of a different key preserves absence of a key. -/
theorem keyAbsent_setKey {x k : String} {acc : List (String × JsonValue)} (v : JsonValue)
    (h : keyAbsent x acc = true) (hne : k ≠ x) : keyAbsent x (setKey acc k v) = true := by
  induction acc with
  | nil => simp [setKey, keyAbsent, hne]
  | cons p rest ih =>
    obtain ⟨k0, v0⟩ := p
    by_cases h0 : k0 = x
    · simp [keyAbsent, h0] at h
    · simp [keyAbsent, h0] at h
      by_cases h0k : k0 = k
      · simp [setKey, h0k, keyAbsent, h0, h, hne]
      · simp [setKey, h0k, keyAbsent, h0, ih h]

/-- Reading the key just assigned yields the assigned value. -/
theorem lookupField_setKey_self (k : String) (acc : List (String × JsonValue)) (v : JsonValue) :
    lookupField k (setKey acc k v) = some v := by
  induction acc with
  | nil => simp [setKey, lookupField]
  | cons p rest ih =>
    obtain ⟨k0, v0⟩ := p
    by_cases h0 : k0 = k
    · simp [setKey, h0, lookupField]
    · simp [setKey, h0, lookupField, ih]

/-- Reading another key is unaffected by an assignment. -/
theorem lookupField_setKey_ne {x k : String} (acc : List (String × JsonValue)) (v : JsonValue)
    (hne : k ≠ x) : lookupField x (setKey acc k v) = lookupField x acc := by
  induction acc with
  | nil => simp [setKey, lookupField, hne]
  | cons p rest ih =>
    obtain ⟨k0, v0⟩ := p
    by_cases h0 : k0 = k
    · subst h0
      simp [setKey, lookupField, hne]
    · simp [setKey, h0, lookupField, ih]

/-- Key absence over concatenation. -/
theorem keyAbsent_append {x : String} {a b : List (String × JsonValue)} :
    keyAbsent x (a ++ b) = (keyAbsent x a && keyAbsent x b) := by
  induction a with
  | nil => simp [keyAbsent]
  | cons p rest ih =>
    obtain ⟨k0, v0⟩ := p
    by_cases h0 : k0 = x
    · simp [keyAbsent, h0]
    · simp [keyAbsent, h0, ih]

/-- A key is absent exactly when reading it yields nothing. -/
theorem keyAbsent_iff_lookupField_none {x : String} {l : List (String × JsonValue)} :
    keyAbsent x l = true ↔ lookupField x l = none := by
  induction l with
  | nil => simp [keyAbsent, lookupField]
  | cons p rest ih =>
    obtain ⟨k0, v0⟩ := p
    by_cases h0 : k0 = x
    · simp [keyAbsent, lookupField, h0]
    · simp [keyAbsent, lookupField, h0, ih]

/-- Every object is disjoint from the empty object. -/
theorem keysDisjoint_nil (l : List (String × JsonValue)) : keysDisjoint l [] = true := by
  induction l with
  | nil => rfl
  | cons p rest ih =>
    obtain ⟨k0, v0⟩ := p
    simp [keysDisjoint, keyAbsent, ih]

/-- Disjointness is preserved by appending an entry whose key is absent from
the left object. -/
theorem keysDisjoint_snoc {rest acc : List (String × JsonValue)} {k : String} (v : JsonValue)
    (hd : keysDisjoint rest acc = true) (ha : keyAbsent k rest = true) :
    keysDisjoint rest (acc ++ [(k, v)]) = true := by
  induction rest with
  | nil => rfl
  | cons p tail ih =>
    obtain ⟨k0, v0⟩ := p
    by_cases h0 : k0 = k
    · simp [keyAbsent, h0] at ha
    · simp [keysDisjoint] at hd
      simp [keyAbsent, h0] at ha
      simp [keysDisjoint, keyAbsent_append, hd.1, keyAbsent, Ne.symm h0, ih hd.2 ha]

/-- Assignment of a canonical key with a normal value preserves normal form
of the accumulator object. -/
theorem isNFFields_setKey {acc : List (String × JsonValue)} {c : String} {w : JsonValue}
    (hacc : isNFFields acc = true) (hc : lookupKey c = c) (hw : isNFChild w = true) :
    isNFFields (setKey acc c w) = true := by
  induction acc with
  | nil => simp [setKey, isNFFields, hc, keyAbsent, hw]
  | cons p rest ih =>
    obtain ⟨k0, v0⟩ := p
    simp [isNFFields, Bool.and_eq_true] at hacc
    obtain ⟨⟨⟨hk0, habs⟩, hv0⟩, hrest⟩ := hacc
    by_cases h0 : k0 = c
    · subst h0
      simp [setKey, isNFFields, hk0, habs, hw, hrest]
    · simp [setKey, h0, isNFFields, hk0, hv0,
        keyAbsent_setKey w habs (Ne.symm h0), ih hrest]

/-- The normalizeObject loop turns any input into a normal-form object:
keys of the output are canonical and distinct and values are normal. -/
theorem nf_fields : ∀ fields acc, isNFFields acc = true →
    isNFFields (normalizeFields fields acc) = true := by
  refine normalizeFields.induct
    (fun v => isNFChild (normalizeChild v) = true)
    (fun l => isNFElems (normalizeElems l) = true)
    (fun fields acc => isNFFields acc = true → isNFFields (normalizeFields fields acc) = true)
    ?_ ?_ ?_ ?_ ?_ ?_ ?_ ?_
  · intro fields h3
    simpa [normalizeChild, isNFChild] using h3 rfl
  · intro elems h2
    simpa [normalizeChild, isNFChild] using h2
  · intro v hobj harr
    cases v with
    | vobj f => exact absurd rfl (hobj f)
    | varr l => exact absurd rfl (harr l)
    | vstr s => rfl
    | vnum n => rfl
    | vbool b => rfl
    | vnull => rfl
  · rfl
  · intro fields rest h3 h2
    simp [normalizeElems, isNFElems, h3 rfl, h2]
  · intro x rest hx h2
    cases x with
    | vobj f => exact absurd rfl (hx f)
    | varr l => simpa [normalizeElems, isNFElems] using h2
    | vstr s => simpa [normalizeElems, isNFElems] using h2
    | vnum n => simpa [normalizeElems, isNFElems] using h2
    | vbool b => simpa [normalizeElems, isNFElems] using h2
    | vnull => simpa [normalizeElems, isNFElems] using h2
  · intro acc h
    simpa [normalizeFields] using h
  · intro k v rest acc ih1 ih3 hacc
    simp only [normalizeFields]
    exact ih3 (isNFFields_setKey hacc (lookupKey_idem k) ih1)

/-- Normalizing the elements of an array yields normal elements. -/
theorem nf_elems (l : List JsonValue) : isNFElems (normalizeElems l) = true := by
  induction l with
  | nil => rfl
  | cons x rest ih =>
    cases x with
    | vobj f => simp [normalizeElems, isNFElems, nf_fields f [] rfl, ih]
    | varr a => simpa [normalizeElems, isNFElems] using ih
    | vstr s => simpa [normalizeElems, isNFElems] using ih
    | vnum n => simpa [normalizeElems, isNFElems] using ih
    | vbool b => simpa [normalizeElems, isNFElems] using ih
    | vnull => simpa [normalizeElems, isNFElems] using ih

/-- Normalizing any value yields a normal value. -/
theorem nf_child (v : JsonValue) : isNFChild (normalizeChild v) = true := by
  cases v with
  | vobj f => simpa [normalizeChild, isNFChild] using nf_fields f [] rfl
  | varr l => simpa [normalizeChild, isNFChild] using nf_elems l
  | vstr s => rfl
  | vnum n => rfl
  | vbool b => rfl
  | vnull => rfl

/-- Normalization replays a normal-form value unchanged. -/
theorem replay_child : ∀ v, isNFChild v = true → normalizeChild v = v := by
  refine normalizeChild.induct
    (fun v => isNFChild v = true → normalizeChild v = v)
    (fun l => isNFElems l = true → normalizeElems l = l)
    (fun fields acc => isNFFields fields = true → keysDisjoint fields acc = true →
      normalizeFields fields acc = acc ++ fields)
    ?_ ?_ ?_ ?_ ?_ ?_ ?_ ?_
  · intro fields h3 h
    have h' : isNFFields fields = true := by simpa [isNFChild] using h
    simp [normalizeChild, h3 h' (keysDisjoint_nil fields)]
  · intro elems h2 h
    have h' : isNFElems elems = true := by simpa [isNFChild] using h
    simp [normalizeChild, h2 h']
  · intro v hobj harr h
    cases v with
    | vobj f => exact absurd rfl (hobj f)
    | varr l => exact absurd rfl (harr l)
    | vstr s => rfl
    | vnum n => rfl
    | vbool b => rfl
    | vnull => rfl
  · intro h
    rfl
  · intro fields rest h3 h2 h
    simp [isNFElems, Bool.and_eq_true] at h
    simp [normalizeElems, h3 h.1 (keysDisjoint_nil fields), h2 h.2]
  · intro x rest hx h2 h
    cases x with
    | vobj f => exact absurd rfl (hx f)
    | varr a =>
      simp [isNFElems] at h
      simp [normalizeElems, h2 h]
    | vstr s =>
      simp [isNFElems] at h
      simp [normalizeElems, h2 h]
    | vnum n =>
      simp [isNFElems] at h
      simp [normalizeElems, h2 h]
    | vbool b =>
      simp [isNFElems] at h
      simp [normalizeElems, h2 h]
    | vnull =>
      simp [isNFElems] at h
      simp [normalizeElems, h2 h]
  · intro acc h1 h2
    simp [normalizeFields]
  · intro k v rest acc ih1 ih3 hNF hDisj
    simp [isNFFields, Bool.and_eq_true] at hNF
    obtain ⟨⟨⟨hk, habs⟩, hv⟩, hrest⟩ := hNF
    simp [keysDisjoint, Bool.and_eq_true] at hDisj
    obtain ⟨hka, hkd⟩ := hDisj
    rw [hk, ih1 hv, setKey_append v hka] at ih3
    simp only [normalizeFields]
    rw [hk, ih1 hv, setKey_append v hka]
    rw [ih3 hrest (keysDisjoint_snoc v hkd habs)]
    simp

/-- Normalizing an already normal object is the identity. -/
theorem replay_fields {fields : List (String × JsonValue)} (h : isNFFields fields = true) :
    normalizeObject fields = fields := by
  have h2 := replay_child (.vobj fields) (by simpa [isNFChild] using h)
  simpa [normalizeChild, normalizeObject] using h2

/-! Lemmas tracking which caller entries write a given canonical key. -/

/-- Writers decompose over concatenation. -/
theorem writersTo_append (c : String) (a b : List (String × JsonValue)) :
    writersTo c (a ++ b) = writersTo c a ++ writersTo c b := by
  induction a with
  | nil => simp [writersTo]
  | cons p rest ih =>
    obtain ⟨k, v⟩ := p
    by_cases hk : lookupKey k = c
    · simp [writersTo, hk, ih]
    · simp [writersTo, hk, ih]

/-- Assigning a key that does not rewrite to the canonical key leaves the
writers to that canonical key unchanged. -/
theorem writersTo_setKey_ne {c k : String} (acc : List (String × JsonValue)) (v : JsonValue)
    (h : lookupKey k ≠ c) : writersTo c (setKey acc k v) = writersTo c acc := by
  induction acc with
  | nil => simp [setKey, writersTo, h]
  | cons p rest ih =>
    obtain ⟨k0, v0⟩ := p
    by_cases h0 : k0 = k
    · subst h0
      simp [setKey, writersTo, h]
    · by_cases hc : lookupKey k0 = c
      · simp [setKey, h0, writersTo, hc, ih]
      · simp [setKey, h0, writersTo, hc, ih]

/-- If no entry writes the canonical key, the normalization loop leaves that
key of the accumulator unchanged. -/
theorem lookupField_normalizeFields_no_writer {c : String} :
    ∀ fields acc, writersTo c fields = [] →
    lookupField c (normalizeFields fields acc) = lookupField c acc := by
  intro fields
  induction fields with
  | nil => intro acc h; rfl
  | cons p rest ih =>
    obtain ⟨k, v⟩ := p
    intro acc h
    by_cases hk : lookupKey k = c
    · simp [writersTo, hk] at h
    · simp [writersTo, hk] at h
      simp only [normalizeFields]
      rw [ih _ h, lookupField_setKey_ne _ _ hk]

/-- The canonical key of a normalized object holds the normalization of the
value of the last entry that writes it. -/
theorem lookupField_normalizeFields_last_writer {c : String} {v : JsonValue} :
    ∀ fields acc, (writersTo c fields).getLast? = some v →
    lookupField c (normalizeFields fields acc) = some (normalizeChild v) := by
  intro fields
  induction fields with
  | nil => intro acc h; simp [writersTo] at h
  | cons p rest ih =>
    obtain ⟨k, w⟩ := p
    intro acc h
    by_cases hk : lookupKey k = c
    · simp only [writersTo, hk, if_pos] at h
      cases hrest : writersTo c rest with
      | nil =>
        rw [hrest] at h
        simp at h
        subst h
        simp only [normalizeFields]
        rw [lookupField_normalizeFields_no_writer rest _ hrest, hk,
          lookupField_setKey_self]
      | cons w2 ws =>
        rw [hrest, List.getLast?_cons_cons] at h
        rw [← hrest] at h
        simp only [normalizeFields]
        exact ih _ h
    · simp only [writersTo, hk, if_neg, ite_false] at h
      simp only [normalizeFields]
      exact ih _ h

/-- A key present on the left is read from the left of a concatenation. -/
theorem lookupField_append_left {x : String} {w : JsonValue} {a : List (String × JsonValue)}
    (b : List (String × JsonValue)) (h : lookupField x a = some w) :
    lookupField x (a ++ b) = some w := by
  induction a with
  | nil => simp [lookupField] at h
  | cons p rest ih =>
    obtain ⟨k0, v0⟩ := p
    by_cases h0 : k0 = x
    · simp [lookupField, h0] at h
      simp [lookupField, h0, h]
    · simp [lookupField, h0] at h
      simp [lookupField, h0, ih h]

/-- A key absent from both objects is absent from their spread. -/
theorem keyAbsent_spreadFields {x : String} :
    ∀ add acc, keyAbsent x acc = true → keyAbsent x add = true →
    keyAbsent x (spreadFields acc add) = true := by
  intro add
  induction add with
  | nil => intro acc h1 h2; exact h1
  | cons p rest ih =>
    obtain ⟨k, v⟩ := p
    intro acc h1 h2
    by_cases h0 : k = x
    · simp [keyAbsent, h0] at h2
    · simp [keyAbsent, h0] at h2
      exact ih _ (keyAbsent_setKey v h1 h0) h2

/-- Spreading an object with distinct keys onto a disjoint object is
concatenation; in particular a spread copy of a JavaScript object is itself. -/
theorem spreadFields_replay :
    ∀ add acc, distinctKeys add = true → keysDisjoint add acc = true →
    spreadFields acc add = acc ++ add := by
  intro add
  induction add with
  | nil => intro acc h1 h2; simp [spreadFields]
  | cons p rest ih =>
    obtain ⟨k, v⟩ := p
    intro acc h1 h2
    simp [distinctKeys, Bool.and_eq_true] at h1
    simp [keysDisjoint, Bool.and_eq_true] at h2
    simp only [spreadFields]
    rw [setKey_append v h2.1, ih _ h1.2 (keysDisjoint_snoc v h2.2 h1.1)]
    simp

/-! Lemmas about the create defaulting phase. -/

/-- The canonical name async_mode is a fixed point of the alias table. -/
theorem lookupKey_async_mode : lookupKey "async_mode" = "async_mode" := by
  simp [lookupKey, propertyMapValuesFixed ("asyncMode", "async_mode") (by decide)]

/-- The canonical name image_path is a fixed point of the alias table. -/
theorem lookupKey_image_path : lookupKey "image_path" = "image_path" := by
  simp [lookupKey, propertyMapValuesFixed ("image", "image_path") (by decide)]

/-- With an absent async flag the async default is appended. -/
theorem applyAsync_absent {wd : List (String × JsonValue)}
    (h : lookupField "async_mode" wd = none) :
    applyAsyncDefault wd = wd ++ [("async_mode", .vbool true)] := by
  simp [applyAsyncDefault, h, setKey_append _ (keyAbsent_iff_lookupField_none.mpr h)]

/-- With a present async flag the async default is skipped. -/
theorem applyAsync_present {wd : List (String × JsonValue)} {v : JsonValue}
    (h : lookupField "async_mode" wd = some v) :
    applyAsyncDefault wd = wd := by
  simp [applyAsyncDefault, h]

/-- The image defaulting step never touches the writers of async_mode. -/
theorem writersTo_async_applyImage (wd : List (String × JsonValue)) :
    writersTo "async_mode" (applyImageDefault wd) = writersTo "async_mode" wd := by
  unfold applyImageDefault
  split
  · exact writersTo_setKey_ne wd _ (by rw [lookupKey_image_path]; decide)
  · rfl

/-- The async defaulting step does not change reads of other keys. -/
theorem lookupField_applyAsync_ne {x : String} (wd : List (String × JsonValue))
    (hx : x ≠ "async_mode") :
    lookupField x (applyAsyncDefault wd) = lookupField x wd := by
  unfold applyAsyncDefault
  split
  · exact lookupField_setKey_ne wd _ (Ne.symm hx)
  · rfl

/-- The async defaulting step does not change the writers of image_path. -/
theorem writersTo_image_applyAsync (wd : List (String × JsonValue)) :
    writersTo "image_path" (applyAsyncDefault wd) = writersTo "image_path" wd := by
  unfold applyAsyncDefault
  split
  · exact writersTo_setKey_ne wd _ (by rw [lookupKey_async_mode]; decide)
  · rfl

/-- If the caller left async_mode unset, the last writer of async_mode in
the defaulted create payload is the forced true. -/
theorem createWithDefaults_async_absent {params : List (String × JsonValue)}
    (h : lookupField "async_mode" params = none) :
    (writersTo "async_mode" (createWithDefaults params)).getLast? = some (.vbool true) := by
  have h1 : keyAbsent "async_mode" params = true := keyAbsent_iff_lookupField_none.mpr h
  have h2 : keyAbsent "async_mode" (spreadFields [] params) = true :=
    keyAbsent_spreadFields params [] rfl h1
  have h3 : lookupField "async_mode" (spreadFields [] params) = none :=
    keyAbsent_iff_lookupField_none.mp h2
  unfold createWithDefaults
  rw [writersTo_async_applyImage, applyAsync_absent h3, writersTo_append]
  have h4 : writersTo "async_mode" [("async_mode", JsonValue.vbool true)] = [JsonValue.vbool true] := by
    simp [writersTo, lookupKey_async_mode]
  rw [h4, List.getLast?_concat]

/-- If the caller supplied neither image nor image_path, the last writer of
image_path in the defaulted create payload is the default image path. -/
theorem createWithDefaults_image_absent {params : List (String × JsonValue)}
    (hi : lookupField "image" params = none) (hp : lookupField "image_path" params = none) :
    (writersTo "image_path" (createWithDefaults params)).getLast? =
      some (.vstr "/var/lib/quilt/images/default.tar") := by
  have hi1 : keyAbsent "image" (spreadFields [] params) = true :=
    keyAbsent_spreadFields params [] rfl (keyAbsent_iff_lookupField_none.mpr hi)
  have hp1 : keyAbsent "image_path" (spreadFields [] params) = true :=
    keyAbsent_spreadFields params [] rfl (keyAbsent_iff_lookupField_none.mpr hp)
  have hi2 : lookupField "image" (applyAsyncDefault (spreadFields [] params)) = none := by
    rw [lookupField_applyAsync_ne _ (by decide)]
    exact keyAbsent_iff_lookupField_none.mp hi1
  have hp2 : lookupField "image_path" (applyAsyncDefault (spreadFields [] params)) = none := by
    rw [lookupField_applyAsync_ne _ (by decide)]
    exact keyAbsent_iff_lookupField_none.mp hp1
  unfold createWithDefaults applyImageDefault
  rw [hi2, hp2]
  simp only [jsTruthyOpt, Bool.not_false, Bool.and_self, if_pos]
  rw [setKey_append _ (keyAbsent_iff_lookupField_none.mpr hp2), writersTo_append]
  have h4 : writersTo "image_path"
      [("image_path", (lookupField "image_path" CONTAINER_DEFAULTS).getD JsonValue.vnull)] =
      [JsonValue.vstr "/var/lib/quilt/images/default.tar"] := by
    simp [writersTo, lookupKey_image_path]
    rfl
  rw [h4, List.getLast?_concat]

/-! Claim theorems. -/

/-- Claim C1: normalization is idempotent — for every payload p,
normalize (normalize p) equals normalize p — because every canonical value
in the alias table is a fixed point of the table: no canonical name occurs
as a source key needing further translation. -/
theorem claim1_normalize_idempotent :
    (∀ fields, normalizeObject (normalizeObject fields) = normalizeObject fields) ∧
    (∀ p ∈ PROPERTY_MAP, lookupAlias p.2 PROPERTY_MAP = none) := by
  constructor
  · intro fields
    exact replay_fields (nf_fields fields [] rfl)
  · exact propertyMapValuesFixed

/-- Witness for C1: the canonical value command of the table entry for cmd
is itself unmapped. -/
theorem claim1_witness : lookupAlias "command" PROPERTY_MAP = none :=
  claim1_normalize_idempotent.2 ("cmd", "command") (by decide)

/-- Counterexample to C4 as stated: the alias-table key cmd, inside a
mapping nested in a sequence nested in a sequence, is not rewritten, so not
every mapping key found in the alias table is rewritten at every nesting
level. -/
theorem claim4_counterexample :
    normalizeObject [("a", .varr [.varr [.vobj [("cmd", .vnum 1)]]])] =
      [("a", .varr [.varr [.vobj [("cmd", .vnum 1)]]])] ∧
    lookupKey "cmd" = "command" ∧ "command" ≠ "cmd" :=
  ⟨rfl, rfl, by decide⟩

/-- Claim C4 (amended): normalization is total (it has no error condition).
For every payload, every mapping the normalizer reaches — the top-level
mapping, mappings nested as values, and mappings that are direct elements of
sequences stored in mappings — carries only canonical keys in the output, so
every alias-table key at those levels is rewritten; moreover each entry is
stored under its key's canonical form with its recursively normalized value,
last writer winning. Keys absent from the alias table, scalar values, and
non-mapping sequence elements are preserved verbatim — including sequences
nested inside sequences, which pass through unchanged together with their
contents, so alias keys inside them are not rewritten. -/
theorem claim4_amended :
    (∀ fields, isNFFields (normalizeObject fields) = true) ∧
    (∀ fields (c : String) v, (writersTo c fields).getLast? = some v →
      lookupField c (normalizeObject fields) = some (normalizeChild v)) ∧
    (∀ l, (l.all fun e => !isObjValue e) = true → normalizeElems l = l) ∧
    (∀ v, isScalar v = true → normalizeChild v = v) ∧
    (∀ fields, isNFFields fields = true → normalizeObject fields = fields) ∧
    (normalizeObject [("env", .vobj [("A", .vstr "1")]),
        ("mounts", .varr [.vobj [("src", .vstr "/h"), ("dst", .vstr "/c")], .vstr "keep"])] =
      [("environment", .vobj [("A", .vstr "1")]),
        ("mounts", .varr [.vobj [("source", .vstr "/h"), ("target", .vstr "/c")], .vstr "keep"])]) := by
  refine ⟨?_, ?_, ?_, ?_, ?_, rfl⟩
  · intro fields
    exact nf_fields fields [] rfl
  · intro fields c v h
    exact lookupField_normalizeFields_last_writer fields [] h
  · intro l hl
    induction l with
    | nil => rfl
    | cons x rest ih =>
      simp only [List.all_cons, Bool.and_eq_true] at hl
      cases x with
      | vobj f => simp [isObjValue] at hl
      | varr a => simp [normalizeElems, ih hl.2]
      | vstr s => simp [normalizeElems, ih hl.2]
      | vnum n => simp [normalizeElems, ih hl.2]
      | vbool b => simp [normalizeElems, ih hl.2]
      | vnull => simp [normalizeElems, ih hl.2]
  · intro v hv
    cases v with
    | vobj f => simp [isScalar] at hv
    | varr a => simp [isScalar] at hv
    | vstr s => rfl
    | vnum n => rfl
    | vbool b => rfl
    | vnull => rfl
  · intro fields h
    exact replay_fields h

/-- Witness for C4 (amended): concrete evaluations of each universally
quantified part that carries a hypothesis. -/
theorem claim4_amended_witness :
    lookupField "command" (normalizeObject [("cmd", .vstr "ls")]) =
      some (normalizeChild (.vstr "ls")) ∧
    normalizeElems [.vstr "x", .varr [.vobj [("cmd", .vnum 1)]]] =
      [.vstr "x", .varr [.vobj [("cmd", .vnum 1)]]] ∧
    normalizeChild (.vnum 3) = .vnum 3 ∧
    normalizeObject [("command", .vstr "ls")] = [("command", .vstr "ls")] :=
  ⟨claim4_amended.2.1 [("cmd", .vstr "ls")] "command" (.vstr "ls") rfl,
    claim4_amended.2.2.1 [.vstr "x", .varr [.vobj [("cmd", .vnum 1)]]] rfl,
    claim4_amended.2.2.2.1 (.vnum 3) rfl,
    claim4_amended.2.2.2.2.1 [("command", .vstr "ls")] rfl⟩

/-- Claim C5: for create, an unset async flag forces async_mode true in the
canonical payload; with neither image nor image_path supplied, image_path
becomes the default image reference; and create with only cmd produces a
canonical payload with exactly command, async_mode true and the default
image_path. -/
theorem claim5_create_defaults :
    (∀ params, lookupField "async_mode" params = none →
      lookupField "async_mode" (createCanonical params) = some (.vbool true)) ∧
    (∀ params, lookupField "image" params = none → lookupField "image_path" params = none →
      lookupField "image_path" (createCanonical params) =
        some (.vstr "/var/lib/quilt/images/default.tar")) ∧
    (createCanonical [("cmd", .varr [.vstr "node", .vstr "app.js"])] =
      [("command", .varr [.vstr "node", .vstr "app.js"]), ("async_mode", .vbool true),
        ("image_path", .vstr "/var/lib/quilt/images/default.tar")]) := by
  refine ⟨?_, ?_, rfl⟩
  · intro params h
    have h2 := lookupField_normalizeFields_last_writer (createWithDefaults params) []
      (createWithDefaults_async_absent h)
    simpa [createCanonical, normalizeObject, normalizeChild] using h2
  · intro params hi hp
    have h2 := lookupField_normalizeFields_last_writer (createWithDefaults params) []
      (createWithDefaults_image_absent hi hp)
    simpa [createCanonical, normalizeObject, normalizeChild] using h2

/-- Witness for C5: both defaulted fields at a concrete create call. -/
theorem claim5_witness :
    lookupField "async_mode" (createCanonical [("cmd", .varr [.vstr "x"])]) =
      some (.vbool true) ∧
    lookupField "image_path" (createCanonical [("cmd", .varr [.vstr "x"])]) =
      some (.vstr "/var/lib/quilt/images/default.tar") :=
  ⟨claim5_create_defaults.1 [("cmd", .varr [.vstr "x"])] rfl,
    claim5_create_defaults.2.1 [("cmd", .varr [.vstr "x"])] rfl rfl⟩

/-- A truthy image property skips the image default. -/
theorem applyImage_skip {wd : List (String × JsonValue)}
    (h : jsTruthyOpt (lookupField "image" wd) = true) :
    applyImageDefault wd = wd := by
  simp [applyImageDefault, h]

/-- A truthy image_path property also skips the image default. -/
theorem applyImage_skip_path {wd : List (String × JsonValue)}
    (h : jsTruthyOpt (lookupField "image_path" wd) = true) :
    applyImageDefault wd = wd := by
  simp [applyImageDefault, h]

/-- An entry of an assignment result comes from the object or carries the
assigned key. -/
theorem mem_setKey {kw : String × JsonValue} {acc : List (String × JsonValue)} {k : String}
    {v : JsonValue} (h : kw ∈ setKey acc k v) : kw ∈ acc ∨ kw.1 = k := by
  induction acc with
  | nil =>
    simp [setKey] at h
    rw [h]
    exact Or.inr rfl
  | cons p rest ih =>
    obtain ⟨k0, w0⟩ := p
    by_cases h0 : k0 = k
    · subst h0
      simp only [setKey, if_pos rfl] at h
      cases h with
      | head => exact Or.inr rfl
      | tail _ h => exact Or.inl (List.mem_cons_of_mem _ h)
    · simp only [setKey, if_neg h0] at h
      cases h with
      | head => exact Or.inl (List.mem_cons_self _ _)
      | tail _ h =>
        cases ih h with
        | inl h1 => exact Or.inl (List.mem_cons_of_mem _ h1)
        | inr h1 => exact Or.inr h1

/-- Assignment preserves key distinctness. -/
theorem distinctKeys_setKey {acc : List (String × JsonValue)} {k : String} (v : JsonValue)
    (h : distinctKeys acc = true) : distinctKeys (setKey acc k v) = true := by
  induction acc with
  | nil => simp [setKey, distinctKeys, keyAbsent]
  | cons p rest ih =>
    obtain ⟨k0, w0⟩ := p
    simp only [distinctKeys, Bool.and_eq_true] at h
    by_cases h0 : k0 = k
    · subst h0
      simp [setKey, distinctKeys, h.1, h.2]
    · simp [setKey, h0, distinctKeys, keyAbsent_setKey v h.1 (Ne.symm h0), ih h.2]

/-- If every writer of a canonical key carries that key literally, and the
key is absent, there are no writers. -/
theorem writersTo_eq_nil {c : String} {l : List (String × JsonValue)}
    (hinv : ∀ kw ∈ l, lookupKey kw.1 = c → kw.1 = c) (habs : keyAbsent c l = true) :
    writersTo c l = [] := by
  induction l with
  | nil => rfl
  | cons p rest ih =>
    obtain ⟨k0, w0⟩ := p
    by_cases hk : lookupKey k0 = c
    · have hk0 : k0 = c := hinv (k0, w0) (List.mem_cons_self _ _) hk
      subst hk0
      simp [keyAbsent] at habs
    · by_cases h0 : k0 = c
      · subst h0
        simp [keyAbsent] at habs
      · simp only [keyAbsent, if_neg h0] at habs
        simp only [writersTo, if_neg hk]
        exact ih (fun kw hm hc2 => hinv kw (List.mem_cons_of_mem _ hm) hc2) habs

/-- If a key that rewrites to the canonical key is not the canonical key
itself, it is absent from any object whose writers all carry the canonical
key literally. -/
theorem keyAbsent_of_inv {c k : String} {acc : List (String × JsonValue)}
    (hinv : ∀ kw ∈ acc, lookupKey kw.1 = c → kw.1 = c) (hk : lookupKey k = c) (hne : k ≠ c) :
    keyAbsent k acc = true := by
  induction acc with
  | nil => rfl
  | cons p rest ih =>
    obtain ⟨k0, w0⟩ := p
    by_cases h0 : k0 = k
    · subst h0
      exact absurd (hinv (k0, w0) (List.mem_cons_self _ _) (by rw [hk])) hne
    · simp only [keyAbsent, if_neg h0]
      exact ih (fun kw hm hc2 => hinv kw (List.mem_cons_of_mem _ hm) hc2)

/-- Assigning the canonical key itself on an object with distinct keys whose
writers all carry the canonical key literally leaves exactly the assigned
value as writer. -/
theorem writersTo_setKey_canonical {c : String} {acc : List (String × JsonValue)} (v : JsonValue)
    (hc : lookupKey c = c) (hd : distinctKeys acc = true)
    (hinv : ∀ kw ∈ acc, lookupKey kw.1 = c → kw.1 = c) :
    writersTo c (setKey acc c v) = [v] := by
  induction acc with
  | nil => simp [setKey, writersTo, hc]
  | cons p rest ih =>
    obtain ⟨k0, w0⟩ := p
    simp only [distinctKeys, Bool.and_eq_true] at hd
    by_cases h0 : k0 = c
    · subst h0
      simp only [setKey, if_pos rfl, writersTo, if_pos hc, List.cons.injEq, true_and]
      exact writersTo_eq_nil (fun kw hm hc2 => hinv kw (List.mem_cons_of_mem _ hm) hc2) hd.1
    · have hk0 : lookupKey k0 ≠ c := fun hcon =>
        h0 (hinv (k0, w0) (List.mem_cons_self _ _) hcon)
      simp only [setKey, if_neg h0, writersTo, if_neg hk0]
      exact ih hd.2 (fun kw hm hc2 => hinv kw (List.mem_cons_of_mem _ hm) hc2)

/-- Spreading an object with no writers of a canonical key leaves the
writers of the base unchanged. -/
theorem writersTo_spread_no_writer {c : String} :
    ∀ params acc, writersTo c params = [] →
    writersTo c (spreadFields acc params) = writersTo c acc := by
  intro params
  induction params with
  | nil => intro acc h; rfl
  | cons p rest ih =>
    obtain ⟨k, w⟩ := p
    intro acc h
    by_cases hk : lookupKey k = c
    · simp [writersTo, hk] at h
    · simp only [writersTo, if_neg hk] at h
      simp only [spreadFields]
      rw [ih _ h, writersTo_setKey_ne _ _ hk]

/-- Spreading an object with exactly one writer of a canonical key over a
base with distinct keys whose writers all carry the canonical key literally
makes that single written value the last writer of the merge. -/
theorem writersTo_spread_single {c : String} {v : JsonValue} (hc : lookupKey c = c) :
    ∀ params acc, distinctKeys acc = true →
    (∀ kw ∈ acc, lookupKey kw.1 = c → kw.1 = c) →
    writersTo c params = [v] →
    (writersTo c (spreadFields acc params)).getLast? = some v := by
  intro params
  induction params with
  | nil => intro acc _ _ h; simp [writersTo] at h
  | cons p rest ih =>
    obtain ⟨k, w⟩ := p
    intro acc hd hinv h
    by_cases hk : lookupKey k = c
    · simp only [writersTo, if_pos hk, List.cons.injEq] at h
      obtain ⟨hw, hrest⟩ := h
      subst hw
      simp only [spreadFields]
      rw [writersTo_spread_no_writer rest _ hrest]
      by_cases hkc : k = c
      · subst hkc
        rw [writersTo_setKey_canonical w hc hd hinv]
        rfl
      · rw [setKey_append w (keyAbsent_of_inv hinv hk hkc), writersTo_append]
        have h1 : writersTo c [(k, w)] = [w] := by
          simp [writersTo, hk]
        rw [h1, List.getLast?_concat]
    · simp only [writersTo, if_neg hk] at h
      simp only [spreadFields]
      refine ih _ (distinctKeys_setKey w hd) ?_ h
      intro kw hm hc2
      rcases mem_setKey hm with h1 | h1
      · exact hinv kw h1 hc2
      · rw [h1] at hc2
        exact absurd hc2 hk

/-- Counterexample to C2 as stated: create with the accepted camelCase
spelling asyncMode set to false yields a canonical payload whose async_mode
is the default true — the caller value is overwritten by the default. -/
theorem claim2_counterexample :
    lookupField "async_mode" (createCanonical [("asyncMode", .vbool false)]) =
      some (.vbool true) ∧
    some (JsonValue.vbool true) ≠ some (JsonValue.vbool false) :=
  ⟨rfl, by simp⟩

/-- Claim C2 (amended): for every operation that merges its defaults under
the caller params by object spread — exec, stop, createVolume and
getMetrics, whose default tables have canonical, distinct keys — a caller
who writes a defaulted canonical field under exactly one accepted spelling
always sees that value, never the default, in the canonical payload. For
create, which applies its defaults by appending after the caller keys, the
caller value is preserved when written under the canonical snake_case keys
async_mode or image_path, or the short alias image that create checks; the
camelCase spellings asyncMode and imagePath are overwritten by the appended
defaults. In particular create with explicit async_mode false keeps false. -/
theorem claim2_amended :
    (∀ defaults params (c : String) v, lookupKey c = c → distinctKeys defaults = true →
      (∀ kw ∈ defaults, lookupKey kw.1 = kw.1) → writersTo c params = [v] →
      lookupField c (normalizeObject (spreadFields defaults params)) =
        some (normalizeChild v)) ∧
    (∀ params v, distinctKeys params = true → lookupField "async_mode" params = some v →
      writersTo "async_mode" params = [v] →
      lookupField "async_mode" (createCanonical params) = some (normalizeChild v)) ∧
    (∀ params w, distinctKeys params = true → lookupField "image" params = some w →
      jsTruthy w = true → writersTo "image_path" params = [w] →
      lookupField "image_path" (createCanonical params) = some (normalizeChild w)) ∧
    (∀ params w, distinctKeys params = true → lookupField "image_path" params = some w →
      jsTruthy w = true → writersTo "image_path" params = [w] →
      lookupField "image_path" (createCanonical params) = some (normalizeChild w)) ∧
    (lookupField "async_mode" (createCanonical
      [("async_mode", .vbool false), ("cmd", .varr [.vstr "x"])]) = some (.vbool false)) := by
  refine ⟨?_, ?_, ?_, ?_, rfl⟩
  · intro defaults params c v hc hdd hcanon hw
    have hinv : ∀ kw ∈ defaults, lookupKey kw.1 = c → kw.1 = c := by
      intro kw hm hkc
      have h1 := hcanon kw hm
      rw [h1] at hkc
      exact hkc
    exact lookupField_normalizeFields_last_writer _ []
      (writersTo_spread_single hc params defaults hdd hinv hw)
  · intro params v hd hp hw
    have hspread : spreadFields [] params = params := by
      simpa using spreadFields_replay params [] hd (keysDisjoint_nil params)
    unfold createCanonical createWithDefaults
    rw [hspread, applyAsync_present hp]
    unfold applyImageDefault
    split
    · apply lookupField_normalizeFields_last_writer
      rw [writersTo_setKey_ne params _ (by rw [lookupKey_image_path]; decide), hw]
      rfl
    · exact lookupField_normalizeFields_last_writer params [] (by rw [hw]; rfl)
  · intro params w hd hi htr hw
    have hspread : spreadFields [] params = params := by
      simpa using spreadFields_replay params [] hd (keysDisjoint_nil params)
    unfold createCanonical createWithDefaults
    rw [hspread]
    cases hasync : lookupField "async_mode" params with
    | some u =>
      rw [applyAsync_present hasync,
        applyImage_skip (by rw [hi]; simpa [jsTruthyOpt] using htr)]
      exact lookupField_normalizeFields_last_writer params [] (by rw [hw]; rfl)
    | none =>
      rw [applyAsync_absent hasync,
        applyImage_skip (by rw [lookupField_append_left _ hi]; simpa [jsTruthyOpt] using htr)]
      apply lookupField_normalizeFields_last_writer
      rw [writersTo_append, hw]
      have h0 : writersTo "image_path" [("async_mode", JsonValue.vbool true)] = [] := by
        simp [writersTo, lookupKey_async_mode]
      rw [h0]
      rfl
  · intro params w hd hp htr hw
    have hspread : spreadFields [] params = params := by
      simpa using spreadFields_replay params [] hd (keysDisjoint_nil params)
    unfold createCanonical createWithDefaults
    rw [hspread]
    cases hasync : lookupField "async_mode" params with
    | some u =>
      rw [applyAsync_present hasync,
        applyImage_skip_path (by rw [hp]; simpa [jsTruthyOpt] using htr)]
      exact lookupField_normalizeFields_last_writer params [] (by rw [hw]; rfl)
    | none =>
      rw [applyAsync_absent hasync,
        applyImage_skip_path (by rw [lookupField_append_left _ hp]; simpa [jsTruthyOpt] using htr)]
      apply lookupField_normalizeFields_last_writer
      rw [writersTo_append, hw]
      have h0 : writersTo "image_path" [("async_mode", JsonValue.vbool true)] = [] := by
        simp [writersTo, lookupKey_async_mode]
      rw [h0]
      rfl

set_option maxRecDepth 4000 in
/-- Witness for C2 (amended): the general spread-merge conjunct evaluated at
exec with the camelCase captureOutput spelling, and the create conjuncts at
canonical async_mode, short-alias image and canonical image_path. -/
theorem claim2_amended_witness :
    lookupField "capture_output" (normalizeObject
      (spreadFields EXEC_DEFAULTS [("captureOutput", .vbool false)])) =
      some (normalizeChild (.vbool false)) ∧
    lookupField "async_mode" (createCanonical [("async_mode", .vbool false)]) =
      some (normalizeChild (.vbool false)) ∧
    lookupField "image_path" (createCanonical [("image", .vstr "/my.tar")]) =
      some (normalizeChild (.vstr "/my.tar")) ∧
    lookupField "image_path" (createCanonical [("image_path", .vstr "/my.tar")]) =
      some (normalizeChild (.vstr "/my.tar")) :=
  ⟨claim2_amended.1 EXEC_DEFAULTS [("captureOutput", .vbool false)] "capture_output"
      (.vbool false) rfl rfl (by decide) rfl,
    claim2_amended.2.1 [("async_mode", .vbool false)] (.vbool false) rfl rfl rfl,
    claim2_amended.2.2.1 [("image", .vstr "/my.tar")] (.vstr "/my.tar") rfl rfl rfl rfl,
    claim2_amended.2.2.2.1 [("image_path", .vstr "/my.tar")] (.vstr "/my.tar") rfl rfl rfl rfl⟩

/-- Every request the resolution helper sends is a GET (the by-name lookup);
it never sends the primary request. -/
theorem resolveContainerId_methods (name : Option JsonValue) (svc : String → ByNameResponse) :
    ∀ r ∈ (resolveContainerId name svc).1, r.method = .get := by
  unfold resolveContainerId
  split
  · simp
  · dsimp only
    split
    · intro r hr
      simp at hr
      subst hr
      rfl
    · intro r hr
      simp at hr
      subst hr
      rfl

/-- Counterexample to C3 as stated: an exec call whose payload has none of
the five command inputs but only a container name sends the by-name lookup
request over HTTP before raising the validation error, so a network request
is made. -/
theorem claim3_counterexample :
    (execModel [("container_name", .vstr "c")] (fun _ => ⟨"abc", true, ""⟩)).1 =
      [byNameRequest "c"] ∧
    (execModel [("container_name", .vstr "c")] (fun _ => ⟨"abc", true, ""⟩)).2 =
      .error "exec requires command or script parameter" ∧
    [byNameRequest "c"] ≠ ([] : List Request) :=
  ⟨rfl, rfl, by simp⟩

/-- Claim C3 (amended): with none of the five command inputs, exec raises
the local validation error; when the payload carries a truthy container_id
this happens with no HTTP request at all, and in every case the operation
fails and the only requests that may precede the failure are by-name lookup
GETs — the exec request itself is never sent. -/
theorem claim3_amended :
    (∀ params svc,
      execCommandBody (normalizeObject (spreadFields EXEC_DEFAULTS params)) =
        .error "exec requires command or script parameter" →
      jsTruthyOpt (lookupField "container_id"
        (normalizeObject (spreadFields EXEC_DEFAULTS params))) = true →
      execModel params svc = ([], .error "exec requires command or script parameter")) ∧
    (∀ params svc,
      execCommandBody (normalizeObject (spreadFields EXEC_DEFAULTS params)) =
        .error "exec requires command or script parameter" →
      (∃ e, (execModel params svc).2 = .error e) ∧
        ∀ r ∈ (execModel params svc).1, r.method = .get) := by
  constructor
  · intro params svc hcmd hid
    simp [execModel, hid, hcmd]
  · intro params svc hcmd
    by_cases hid : jsTruthyOpt (lookupField "container_id"
        (normalizeObject (spreadFields EXEC_DEFAULTS params))) = true
    · simp [execModel, hid, hcmd]
    · rw [Bool.not_eq_true] at hid
      cases hres : (resolveContainerId (lookupField "container_name"
          (normalizeObject (spreadFields EXEC_DEFAULTS params))) svc).2 with
      | error e =>
        refine ⟨⟨e, ?_⟩, ?_⟩
        · simp [execModel, hid, hres]
        · intro r hr
          simp [execModel, hid, hres] at hr
          exact resolveContainerId_methods _ svc r hr
      | ok cid =>
        refine ⟨⟨"exec requires command or script parameter", ?_⟩, ?_⟩
        · simp [execModel, hid, hres, hcmd]
        · intro r hr
          simp [execModel, hid, hres, hcmd] at hr
          exact resolveContainerId_methods _ svc r hr

/-- Witness for C3 (amended): exec with a container_id and no command input
fails locally with no request sent. -/
theorem claim3_amended_witness :
    execModel [("container_id", .vstr "abc")] (fun _ => ⟨"", false, ""⟩) =
      ([], .error "exec requires command or script parameter") :=
  claim3_amended.1 [("container_id", .vstr "abc")] (fun _ => ⟨"", false, ""⟩) rfl rfl

/-- Claim C6: an operation given only a container name that the by-name
lookup does not resolve fails with a descriptive error naming the unresolved
name, and the primary request is never sent — shown for the shared
resolution helper and for exec, whose only emitted request is the lookup
GET. -/
theorem claim6_name_not_found :
    (∀ (name : String) svc, name ≠ "" → (svc name).found = false →
      resolveContainerId (some (.vstr name)) svc =
        ([byNameRequest name],
          .error ("Container " ++ squote ++ name ++ squote ++ " not found"))) ∧
    (∀ params svc name,
      jsTruthyOpt (lookupField "container_id"
        (normalizeObject (spreadFields EXEC_DEFAULTS params))) = false →
      lookupField "container_name" (normalizeObject (spreadFields EXEC_DEFAULTS params)) =
        some (.vstr name) → name ≠ "" → (svc name).found = false →
      execModel params svc =
        ([byNameRequest name],
          .error ("Container " ++ squote ++ name ++ squote ++ " not found"))) := by
  have hres : ∀ (name : String) svc, name ≠ "" → (svc name).found = false →
      resolveContainerId (some (.vstr name)) svc =
        ([byNameRequest name],
          .error ("Container " ++ squote ++ name ++ squote ++ " not found")) := by
    intro name svc hne hfound
    simp [resolveContainerId, jsTruthyOpt, jsTruthy, hne, jsString, hfound]
  refine ⟨hres, ?_⟩
  intro params svc name hid hname hne hfound
  simp [execModel, hid, hname, hres name svc hne hfound]

/-- Witness for C6: the spec scenario — exec with an unresolvable name and a
script sends only the lookup and fails naming the name. -/
theorem claim6_witness :
    execModel [("container_name", .vstr "my-app"), ("script", .vstr "echo A\necho B")]
      (fun _ => ⟨"", false, ""⟩) =
      ([byNameRequest "my-app"],
        .error ("Container " ++ squote ++ "my-app" ++ squote ++ " not found")) :=
  claim6_name_not_found.2 [("container_name", .vstr "my-app"), ("script", .vstr "echo A\necho B")]
    (fun _ => ⟨"", false, ""⟩) "my-app" rfl rfl (by decide) rfl

/-- Claim C10: in exec a non-empty script takes precedence over any command
field and is transported as a cmd_b64 object holding its base64 encoding; an
empty script is treated as absent, so the command field governs, and with
neither the local validation error is raised. The concrete conjunct shows
the full posted request for a payload with both script and command. -/
theorem claim10_script_precedence :
    (∀ n s, lookupField "script" n = some (.vstr s) → s ≠ "" →
      execCommandBody n = .ok (.vobj [("cmd_b64", .vstr (base64OfString s))])) ∧
    (∀ n c, lookupField "script" n = some (.vstr "") →
      lookupField "command" n = some (.vstr c) → execCommandBody n = .ok (.vstr c)) ∧
    (∀ n, lookupField "script" n = some (.vstr "") → lookupField "command" n = none →
      execCommandBody n = .error "exec requires command or script parameter") ∧
    ((execModel [("container_id", .vstr "abc"), ("script", .vstr "echo hi"),
        ("command", .vstr "ignored")] (fun _ => ⟨"", false, ""⟩)).2 =
      .ok { method := .post, path := "/containers/abc/exec",
            body := some (.vobj
              [("command", .vobj [("cmd_b64", .vstr (base64OfString "echo hi"))]),
               ("workdir", .vstr "/"), ("capture_output", .vbool true)]) }) := by
  refine ⟨?_, ?_, ?_, rfl⟩
  · intro n s hs hne
    simp [execCommandBody, hs, jsTruthyOpt, jsTruthy, hne, jsString]
  · intro n c hs hc
    simp [execCommandBody, hs, jsTruthyOpt, jsTruthy, hc]
  · intro n hs hc
    simp [execCommandBody, hs, jsTruthyOpt, jsTruthy, hc]

/-- Witness for C10: a concrete multi-line script is encoded, and an empty
script with a string command falls through to the command. -/
theorem claim10_witness :
    execCommandBody [("script", .vstr "echo A\necho B")] =
      .ok (.vobj [("cmd_b64", .vstr (base64OfString "echo A\necho B"))]) ∧
    execCommandBody [("script", .vstr ""), ("command", .vstr "ls")] = .ok (.vstr "ls") :=
  ⟨claim10_script_precedence.1 [("script", .vstr "echo A\necho B")] "echo A\necho B" rfl
      (by decide),
    claim10_script_precedence.2.1 [("script", .vstr ""), ("command", .vstr "ls")] "ls" rfl rfl⟩

/-- Claim C7: inspectVolume resolves a 404 transport failure successfully to
found false with the message Volume not found; every other transport failure
is rethrown as the typed API error; success wraps the volume. -/
theorem claim7_inspect_volume :
    (∀ e : QuiltHttpError, e.statusCode = 404 →
      inspectVolume (.error e) = .ok ⟨false, .vobj [], "Volume not found"⟩) ∧
    (∀ e : QuiltHttpError, e.statusCode ≠ 404 →
      inspectVolume (.error e) = .error (handleError e "inspectVolume")) ∧
    (∀ v, inspectVolume (.ok v) = .ok ⟨true, v, ""⟩) := by
  refine ⟨?_, ?_, ?_⟩
  · intro e h
    simp [inspectVolume, h]
  · intro e h
    simp [inspectVolume, h]
  · intro v
    rfl

/-- Witness for C7: a concrete 404 failure and a concrete 500 failure. -/
theorem claim7_witness :
    inspectVolume (.error ⟨"m", 404, .get, "/volumes/missing/inspect", none⟩) =
      .ok ⟨false, .vobj [], "Volume not found"⟩ ∧
    inspectVolume (.error ⟨"m", 500, .get, "/volumes/missing/inspect", none⟩) =
      .error (handleError ⟨"m", 500, .get, "/volumes/missing/inspect", none⟩ "inspectVolume") :=
  ⟨claim7_inspect_volume.1 _ rfl, claim7_inspect_volume.2.1 _ (by decide)⟩

/-- Counterexample to C8 as stated: for a non-2xx response whose body is not
valid JSON, the thrown message is the HTTP status fallback, not the raw
response text. -/
theorem claim8_counterexample :
    requestOutcome .post "/containers" ⟨500, "Internal Server Error", "oops not json", none⟩ =
      .error ⟨"HTTP 500: Internal Server Error", 500, .post, "/containers", none⟩ ∧
    "HTTP 500: Internal Server Error" ≠ "oops not json" :=
  ⟨rfl, by decide⟩

/-- Claim C8 (amended): for a non-2xx, non-204 response, a JSON object body
with a non-empty error string surfaces that string as the failure message
and the details property as the failure details; a JSON object body without
an error property, or a body that is not valid JSON, surfaces the HTTP
status fallback message instead (the raw text is not used as the message). -/
theorem claim8_amended :
    (∀ m p (r : HttpResponse) flds s, responseOk r.status = false → r.status ≠ 204 →
      r.bodyText ≠ "" → r.parsed = some (.vobj flds) →
      lookupField "error" flds = some (.vstr s) → s ≠ "" →
      requestOutcome m p r =
        .error ⟨s, r.status, m, p, lookupField "details" flds⟩) ∧
    (∀ m p (r : HttpResponse) flds, responseOk r.status = false → r.status ≠ 204 →
      r.bodyText ≠ "" → r.parsed = some (.vobj flds) →
      lookupField "error" flds = none →
      requestOutcome m p r =
        .error ⟨"HTTP " ++ toString r.status ++ ": " ++ r.statusText, r.status, m, p,
          lookupField "details" flds⟩) ∧
    (∀ m p (r : HttpResponse), responseOk r.status = false → r.status ≠ 204 →
      r.bodyText ≠ "" → r.parsed = none →
      requestOutcome m p r =
        .error ⟨"HTTP " ++ toString r.status ++ ": " ++ r.statusText, r.status, m, p, none⟩) := by
  refine ⟨?_, ?_, ?_⟩
  · intro m p r flds s hok h204 hbody hparse herr hs
    simp [requestOutcome, responseData, h204, hbody, hparse, hok, jsGet, herr,
      jsTruthy, hs, jsString]
  · intro m p r flds hok h204 hbody hparse herr
    simp [requestOutcome, responseData, h204, hbody, hparse, hok, jsGet, herr]
  · intro m p r hok h204 hbody hparse
    simp [requestOutcome, responseData, h204, hbody, hparse, hok, jsGet, lookupField]

/-- Witness for C8 (amended): a concrete JSON error body surfaces the
service error string and detail. -/
theorem claim8_witness :
    requestOutcome .get "/x"
        ⟨500, "ISE", "b", some (.vobj [("error", .vstr "boom"), ("details", .vstr "ctx")])⟩ =
      .error ⟨"boom", 500, .get, "/x", some (.vstr "ctx")⟩ := by
  have h := claim8_amended.1 .get "/x"
    ⟨500, "ISE", "b", some (.vobj [("error", .vstr "boom"), ("details", .vstr "ctx")])⟩
    [("error", .vstr "boom"), ("details", .vstr "ctx")] "boom"
    rfl (by decide) (by decide) rfl rfl (by decide)
  simpa using h

/-- Counterexample to C9 as stated: a caller payload with a truthy
non-boolean confirm value is forwarded unchanged, so the transmitted confirm
is not true for every caller payload. -/
theorem claim9_counterexample :
    jsGet (forceCleanupBody [("confirm", .vstr "yes")]) "confirm" = some (.vstr "yes") ∧
    some (JsonValue.vstr "yes") ≠ some (JsonValue.vbool true) :=
  ⟨rfl, by simp⟩

/-- Claim C9 (amended): forceCleanupContainer transmits confirm true
whenever the caller leaves confirm absent or boolean — in particular an
explicit confirm false is overridden — while a truthy non-boolean confirm is
forwarded unchanged; remove_volumes is false unless the caller supplies a
truthy value, which is forwarded unchanged. -/
theorem claim9_amended :
    (∀ params, (lookupField "confirm" (normalizeObject params) = none ∨
        ∃ b, lookupField "confirm" (normalizeObject params) = some (.vbool b)) →
      jsGet (forceCleanupBody params) "confirm" = some (.vbool true)) ∧
    (∀ params, jsTruthyOpt (lookupField "remove_volumes" (normalizeObject params)) = false →
      jsGet (forceCleanupBody params) "remove_volumes" = some (.vbool false)) ∧
    (∀ params v, lookupField "remove_volumes" (normalizeObject params) = some v →
      jsTruthy v = true → jsGet (forceCleanupBody params) "remove_volumes" = some v) := by
  refine ⟨?_, ?_, ?_⟩
  · intro params h
    rcases h with h | ⟨b, h⟩
    · simp [forceCleanupBody, jsGet, lookupField, jsOrOpt, h]
    · cases b with
      | true => simp [forceCleanupBody, jsGet, lookupField, jsOrOpt, jsOr, jsTruthy, h]
      | false => simp [forceCleanupBody, jsGet, lookupField, jsOrOpt, jsOr, jsTruthy, h]
  · intro params h
    cases hl : lookupField "remove_volumes" (normalizeObject params) with
    | none => simp [forceCleanupBody, jsGet, lookupField, jsOrOpt, hl]
    | some v =>
      rw [hl] at h
      simp only [jsTruthyOpt] at h
      simp [forceCleanupBody, jsGet, lookupField, jsOrOpt, jsOr, hl, h]
  · intro params v hl htr
    simp [forceCleanupBody, jsGet, lookupField, jsOrOpt, jsOr, hl, htr]

/-- Witness for C9 (amended): explicit confirm false is transmitted as true
and remove_volumes defaults to false. -/
theorem claim9_amended_witness :
    jsGet (forceCleanupBody [("confirm", .vbool false)]) "confirm" = some (.vbool true) ∧
    jsGet (forceCleanupBody [("confirm", .vbool false)]) "remove_volumes" =
      some (.vbool false) :=
  ⟨claim9_amended.1 [("confirm", .vbool false)] (Or.inr ⟨false, rfl⟩),
    claim9_amended.2.1 [("confirm", .vbool false)] rfl⟩
